import Mathlib

/-!
Verification of the observable value container ("atom"), the delayed value
producer, and the `useSyncExternalStore` shim of `src/index.tsx`.

The atom (`createAtom`, src/index.tsx lines 146-160) holds a mutable value
and delegates listener management to a DOM `EventTarget`:

  * `get()` returns the current value;
  * `set(v)` assigns the value and then dispatches a `"change"` event;
  * `subscribe(cb)` calls `addEventListener("change", cb)` and returns an
    unsubscribe closure calling `removeEventListener("change", cb)`.

The embedding follows the WHATWG DOM semantics of `EventTarget` for a single
event type:

  * `addEventListener` appends the callback unless an identical registration
    (same type, callback, capture flag) is already present — duplicates are
    deduplicated by identity;
  * `removeEventListener` removes the matching registration if present;
  * `dispatchEvent` iterates over a snapshot (clone) of the listener list
    taken when dispatch starts, invoking each listener that has not been
    removed in the meantime; listeners added during the dispatch are not
    invoked for that event.

Callbacks are identified by natural-number identities.  A callback body is a
list of atom operations it performs when invoked: reading the value,
subscribing a callback, or unsubscribing a callback.  (The demo's listeners
only ever read state; a reentrant `set` from inside a listener never occurs
in the repository and is outside the model.)  Executing an operation yields
the final atom state together with a trace of events: which callbacks were
invoked and which values the embedded `get()` calls observed.
-/

/-- An operation a registered callback may perform when invoked: call the
atom's `get()`, subscribe a callback (by identity), or unsubscribe one. -/
inductive CbCmd where
  | cget : CbCmd
  | csub : Nat → CbCmd
  | cunsub : Nat → CbCmd
deriving DecidableEq

/-- State of one atom created by `createAtom` (src/index.tsx lines 146-160):
the captured `value` variable and the `EventTarget`'s listener list for the
`"change"` event, in registration order, identified by callback identity. -/
structure AtomState (T : Type) where
  value : T
  listeners : List Nat
deriving DecidableEq

/-- Initial atom state of `createAtom(value)`: given value, no listeners. -/
def initAtom {T : Type} (v : T) : AtomState T :=
  ⟨v, []⟩

/-- DOM `addEventListener`: append the callback unless an identical
registration is already in the list (duplicates are ignored). -/
def addListener (l : List Nat) (id : Nat) : List Nat :=
  if id ∈ l then l else l ++ [id]

/-- DOM `removeEventListener`: remove the matching registration if present. -/
def removeListener (l : List Nat) (id : Nat) : List Nat :=
  l.erase id

/-- The `get` method of the atom: returns the current value. -/
def getAtom {T : Type} (s : AtomState T) : T :=
  s.value

/-- The `subscribe` method of the atom, registering callback `id` via
`addEventListener("change", cb)`. -/
def subscribeAtom {T : Type} (s : AtomState T) (id : Nat) : AtomState T :=
  { s with listeners := addListener s.listeners id }

/-- The unsubscribe closure returned by `subscribe`, calling
`removeEventListener("change", cb)` for callback `id`. -/
def unsubscribeAtom {T : Type} (s : AtomState T) (id : Nat) : AtomState T :=
  { s with listeners := removeListener s.listeners id }

/-- Events observable while executing atom operations: callback `id` was
invoked by a dispatch, or a `get()` inside callback `id` observed value `v`. -/
inductive AtomEv (T : Type) where
  | invoked : Nat → AtomEv T
  | got : Nat → T → AtomEv T
deriving DecidableEq

/-- Execution of the body of callback `who` (a list of operations) on the
current atom state, yielding the new state and the trace of `got` events. -/
def runBody {T : Type} (env : Nat → List CbCmd) (who : Nat) :
    AtomState T → List CbCmd → AtomState T × List (AtomEv T)
  | s, [] => (s, [])
  | s, CbCmd.cget :: rest =>
      let p := runBody env who s rest
      (p.1, AtomEv.got who s.value :: p.2)
  | s, CbCmd.csub j :: rest =>
      runBody env who { s with listeners := addListener s.listeners j } rest
  | s, CbCmd.cunsub j :: rest =>
      runBody env who { s with listeners := removeListener s.listeners j } rest

/-- DOM `dispatchEvent` inner loop over the snapshot `pending` of the listener
list taken when dispatch started: each pending callback still registered at
its turn is invoked (running its body from `env`); callbacks removed during
the pass are skipped, and callbacks added during the pass are not in the
snapshot, hence not invoked for this event. -/
def notify {T : Type} (env : Nat → List CbCmd) :
    AtomState T → List Nat → AtomState T × List (AtomEv T)
  | s, [] => (s, [])
  | s, id :: rest =>
      if id ∈ s.listeners then
        let p := runBody env id s (env id)
        let q := notify env p.1 rest
        (q.1, AtomEv.invoked id :: (p.2 ++ q.2))
      else
        notify env s rest

/-- The `set` method of the atom (src/index.tsx lines 151-154): assign
`value = newValue`, then `dispatchEvent(new Event("change"))`. -/
def setAtom {T : Type} (env : Nat → List CbCmd) (s : AtomState T) (v : T) :
    AtomState T × List (AtomEv T) :=
  let s1 : AtomState T := { s with value := v }
  notify env s1 s1.listeners

/-- Execution of a sequence of top-level `set` calls, in order. -/
def setSeq {T : Type} (env : Nat → List CbCmd) :
    AtomState T → List T → AtomState T
  | s, [] => s
  | s, v :: vs => setSeq env (setAtom env s v).1 vs

theorem runBody_value {T : Type} (env : Nat → List CbCmd) (who : Nat)
    (cmds : List CbCmd) (s : AtomState T) :
    (runBody env who s cmds).1.value = s.value := by
  induction cmds generalizing s with
  | nil => rfl
  | cons c rest ih =>
    cases c with
    | cget => simpa [runBody] using ih s
    | csub j => simpa [runBody] using ih _
    | cunsub j => simpa [runBody] using ih _

theorem notify_value {T : Type} (env : Nat → List CbCmd)
    (pending : List Nat) (s : AtomState T) :
    (notify env s pending).1.value = s.value := by
  induction pending generalizing s with
  | nil => rfl
  | cons id rest ih =>
    by_cases h : id ∈ s.listeners
    · simp only [notify, if_pos h]
      rw [ih]
      exact runBody_value env id (env id) s
    · simpa [notify, if_neg h] using ih s

theorem setAtom_value {T : Type} (env : Nat → List CbCmd) (s : AtomState T)
    (v : T) : (setAtom env s v).1.value = v := by
  simpa [setAtom] using notify_value env s.listeners { s with value := v }

/-- C1: after a sequence of `set` calls, `get()` returns the last value set
(or the existing value when the sequence is empty), and `get()` right after
any single `set(v)` returns `v`: the value read is always the one current at
call time. -/
theorem C1_get_returns_latest {T : Type} (env : Nat → List CbCmd)
    (s : AtomState T) (vs : List T) :
    getAtom (setSeq env s vs) = vs.getLastD (getAtom s) ∧
    ∀ v : T, getAtom (setAtom env s v).1 = v := by
  constructor
  · induction vs generalizing s with
    | nil => rfl
    | cons v rest ih =>
      have h := ih (setAtom env s v).1
      rw [List.getLastD_cons]
      calc getAtom (setSeq env s (v :: rest))
          = rest.getLastD (getAtom (setAtom env s v).1) := h
        _ = rest.getLastD v := by rw [show getAtom (setAtom env s v).1 = v from setAtom_value env s v]
  · intro v
    exact setAtom_value env s v

theorem runBody_got {T : Type} (env : Nat → List CbCmd) (who : Nat)
    (cmds : List CbCmd) (s : AtomState T) (id : Nat) (w : T)
    (h : AtomEv.got id w ∈ (runBody env who s cmds).2) : w = s.value := by
  induction cmds generalizing s with
  | nil => simp [runBody] at h
  | cons c rest ih =>
    cases c with
    | cget =>
      simp only [runBody, List.mem_cons] at h
      rcases h with h | h
      · cases h; rfl
      · exact ih s h
    | csub j =>
      simp only [runBody] at h
      exact ih { value := s.value, listeners := addListener s.listeners j } h
    | cunsub j =>
      simp only [runBody] at h
      exact ih { value := s.value, listeners := removeListener s.listeners j } h

theorem notify_got {T : Type} (env : Nat → List CbCmd)
    (pending : List Nat) (s : AtomState T) (id : Nat) (w : T)
    (h : AtomEv.got id w ∈ (notify env s pending).2) : w = s.value := by
  induction pending generalizing s with
  | nil => simp [notify] at h
  | cons hd rest ih =>
    by_cases hm : hd ∈ s.listeners
    · simp only [notify, if_pos hm, List.mem_cons, List.mem_append] at h
      rcases h with h | h | h
      · cases h
      · exact runBody_got env hd (env hd) s id w h
      · have := ih _ h
        rwa [runBody_value] at this
    · simp only [notify, if_neg hm] at h
      exact ih s h

/-- C2: the value assignment of `set(v)` commits before the `"change"` event
is dispatched: every `get()` performed inside a listener callback invoked by
that `set(v)` observes `v`, never the prior value. -/
theorem C2_set_commits_before_notify {T : Type} (env : Nat → List CbCmd)
    (s : AtomState T) (v : T) (id : Nat) (w : T)
    (h : AtomEv.got id w ∈ (setAtom env s v).2) : w = v :=
  notify_got env s.listeners { s with value := v } id w h

/-- Witness for C2: with callback 0 registered and reading the value, setting
the value to 2 from an atom holding 1 makes the listener observe 2. -/
theorem C2_witness :
    AtomEv.got 0 2 ∈
      (setAtom (fun i => if i = 0 then [CbCmd.cget] else [])
        (⟨1, [0]⟩ : AtomState Nat) 2).2 ∧ (2 : Nat) = 2 :=
  ⟨by decide,
   C2_set_commits_before_notify (fun i => if i = 0 then [CbCmd.cget] else [])
     (⟨1, [0]⟩ : AtomState Nat) 2 0 2 (by decide)⟩

theorem mem_addListener_self (l : List Nat) (id : Nat) :
    id ∈ addListener l id := by
  by_cases h : id ∈ l
  · simp [addListener, h]
  · simp [addListener, h]

theorem mem_addListener_of_mem {l : List Nat} {a : Nat} (id : Nat)
    (h : a ∈ l) : a ∈ addListener l id := by
  by_cases hm : id ∈ l
  · simpa [addListener, hm]
  · simp [addListener, hm, h]

theorem addListener_nodup {l : List Nat} (id : Nat) (h : l.Nodup) :
    (addListener l id).Nodup := by
  by_cases hm : id ∈ l
  · simpa [addListener, hm]
  · simp [addListener, hm, List.nodup_append, h]

theorem removeListener_nodup {l : List Nat} (id : Nat) (h : l.Nodup) :
    (removeListener l id).Nodup :=
  h.erase id

theorem not_mem_removeListener_self {l : List Nat} (id : Nat) (h : l.Nodup) :
    id ∉ removeListener l id := by
  intro hc
  exact absurd rfl (h.mem_erase_iff.mp hc).1

theorem mem_removeListener_of_ne {l : List Nat} {a b : Nat} (hne : a ≠ b)
    (h : a ∈ l) : a ∈ removeListener l b :=
  (List.mem_erase_of_ne hne).mpr h

theorem runBody_count_invoked {T : Type} [DecidableEq T]
    (env : Nat → List CbCmd) (who : Nat) (cmds : List CbCmd)
    (s : AtomState T) (id : Nat) :
    (runBody env who s cmds).2.count (AtomEv.invoked id) = 0 := by
  induction cmds generalizing s with
  | nil => simp [runBody]
  | cons c rest ih =>
    cases c with
    | cget => simp [runBody, List.count_cons, ih s]
    | csub j =>
      simp only [runBody]
      exact ih _
    | cunsub j =>
      simp only [runBody]
      exact ih _

theorem runBody_mem {T : Type} (env : Nat → List CbCmd) (who : Nat)
    (cmds : List CbCmd) (s : AtomState T) (id : Nat)
    (hs : id ∈ s.listeners) (hc : CbCmd.cunsub id ∉ cmds) :
    id ∈ (runBody env who s cmds).1.listeners := by
  induction cmds generalizing s with
  | nil => exact hs
  | cons c rest ih =>
    simp only [List.mem_cons, not_or] at hc
    cases c with
    | cget =>
      simp only [runBody]
      exact ih s hs hc.2
    | csub j =>
      simp only [runBody]
      exact ih _ (mem_addListener_of_mem j hs) hc.2
    | cunsub j =>
      have hne : id ≠ j := by
        intro heq
        exact hc.1 (by rw [heq])
      simp only [runBody]
      exact ih _ (mem_removeListener_of_ne hne hs) hc.2

theorem runBody_nodup {T : Type} (env : Nat → List CbCmd) (who : Nat)
    (cmds : List CbCmd) (s : AtomState T) (h : s.listeners.Nodup) :
    (runBody env who s cmds).1.listeners.Nodup := by
  induction cmds generalizing s with
  | nil => exact h
  | cons c rest ih =>
    cases c with
    | cget =>
      simp only [runBody]
      exact ih s h
    | csub j =>
      simp only [runBody]
      exact ih _ (addListener_nodup j h)
    | cunsub j =>
      simp only [runBody]
      exact ih _ (removeListener_nodup j h)

theorem notify_nodup {T : Type} (env : Nat → List CbCmd)
    (pending : List Nat) (s : AtomState T) (h : s.listeners.Nodup) :
    (notify env s pending).1.listeners.Nodup := by
  induction pending generalizing s with
  | nil => exact h
  | cons hd rest ih =>
    by_cases hm : hd ∈ s.listeners
    · simp only [notify, if_pos hm]
      exact ih _ (runBody_nodup env hd (env hd) s h)
    · simp only [notify, if_neg hm]
      exact ih s h

theorem setAtom_nodup {T : Type} (env : Nat → List CbCmd) (s : AtomState T)
    (v : T) (h : s.listeners.Nodup) :
    (setAtom env s v).1.listeners.Nodup :=
  notify_nodup env s.listeners { s with value := v } h

theorem notify_count_invoked_of_not_mem {T : Type} [DecidableEq T]
    (env : Nat → List CbCmd) (pending : List Nat) (s : AtomState T)
    (id : Nat) (h : id ∉ pending) :
    (notify env s pending).2.count (AtomEv.invoked id) = 0 := by
  induction pending generalizing s with
  | nil => simp [notify]
  | cons hd rest ih =>
    simp only [List.mem_cons, not_or] at h
    have hne : hd ≠ id := fun hc => h.1 hc.symm
    by_cases hm : hd ∈ s.listeners
    · simp [notify, hm, List.count_cons, List.count_append,
        runBody_count_invoked, ih _ h.2, hne]
    · simp only [notify, if_neg hm]
      exact ih s h.2

theorem notify_count_invoked_one {T : Type} [DecidableEq T]
    (env : Nat → List CbCmd) (pending : List Nat) (s : AtomState T)
    (id : Nat) (hn : pending.Nodup) (hmem : id ∈ pending)
    (hs : id ∈ s.listeners) (henv : ∀ j, CbCmd.cunsub id ∉ env j) :
    (notify env s pending).2.count (AtomEv.invoked id) = 1 := by
  induction pending generalizing s with
  | nil => cases hmem
  | cons hd rest ih =>
    have hrest := (List.nodup_cons.mp hn).2
    have hhd := (List.nodup_cons.mp hn).1
    rcases List.mem_cons.mp hmem with heq | hmem'
    · subst heq
      simp [notify, hs, List.count_cons, List.count_append,
        runBody_count_invoked,
        notify_count_invoked_of_not_mem env rest _ id hhd]
    · have hne : hd ≠ id := fun hc => hhd (hc ▸ hmem')
      by_cases hm : hd ∈ s.listeners
      · have hkeep := runBody_mem env hd (env hd) s id hs (henv hd)
        simp [notify, hm, List.count_cons, List.count_append,
          runBody_count_invoked, ih _ hrest hmem' hkeep, hne]
      · simp only [notify, if_neg hm]
        exact ih s hrest hmem' hs

theorem setAtom_count_invoked_one {T : Type} [DecidableEq T]
    (env : Nat → List CbCmd) (s : AtomState T) (v : T) (id : Nat)
    (hn : s.listeners.Nodup) (hmem : id ∈ s.listeners)
    (henv : ∀ j, CbCmd.cunsub id ∉ env j) :
    (setAtom env s v).2.count (AtomEv.invoked id) = 1 :=
  notify_count_invoked_one env s.listeners { s with value := v } id hn hmem
    hmem henv

theorem setAtom_count_invoked_zero {T : Type} [DecidableEq T]
    (env : Nat → List CbCmd) (s : AtomState T) (v : T) (id : Nat)
    (hmem : id ∉ s.listeners) :
    (setAtom env s v).2.count (AtomEv.invoked id) = 0 :=
  notify_count_invoked_of_not_mem env s.listeners { s with value := v } id hmem

theorem addListener_idem (l : List Nat) (id : Nat) :
    addListener (addListener l id) id = addListener l id := by
  by_cases hm : id ∈ l <;> simp [addListener, hm]

/-- C4: after the unsubscribe closure runs, a subsequent `set` does not
invoke the removed listener, and running the unsubscribe closure a second
time leaves the atom state unchanged (idempotence); both operations are
total. -/
theorem C4_unsubscribe_idempotent {T : Type} [DecidableEq T]
    (env : Nat → List CbCmd) (s : AtomState T) (v : T) (id : Nat)
    (hn : s.listeners.Nodup) :
    (setAtom env (unsubscribeAtom s id) v).2.count (AtomEv.invoked id) = 0 ∧
    unsubscribeAtom (unsubscribeAtom s id) id = unsubscribeAtom s id := by
  have hno : id ∉ (unsubscribeAtom s id).listeners :=
    not_mem_removeListener_self id hn
  refine ⟨setAtom_count_invoked_zero env _ v id hno, ?_⟩
  have h2 : (s.listeners.erase id).erase id = s.listeners.erase id :=
    List.erase_of_not_mem hno
  simp [unsubscribeAtom, removeListener, h2]

/-- Witness for C4: unsubscribing listener 1 suppresses its notification on
the next `set`, and a second unsubscribe is a no-op. -/
theorem C4_witness :
    (setAtom (fun _ => ([] : List CbCmd))
      (unsubscribeAtom (⟨3, [0, 1]⟩ : AtomState Nat) 1) 9).2.count
        (AtomEv.invoked 1) = 0 ∧
    unsubscribeAtom (unsubscribeAtom (⟨3, [0, 1]⟩ : AtomState Nat) 1) 1 =
      unsubscribeAtom (⟨3, [0, 1]⟩ : AtomState Nat) 1 :=
  C4_unsubscribe_idempotent (fun _ => []) (⟨3, [0, 1]⟩ : AtomState Nat) 9 1
    (by decide)

/-- C5: a callback `j` not registered when `set(v)` starts — in particular
one registered by a listener during that notification pass, as hypothesis
`hsub` states — is not invoked during that pass (the dispatch iterates over
the snapshot taken at dispatch start), and a later `set` invokes it exactly
once. -/
theorem C5_late_subscriber_deferred {T : Type} [DecidableEq T]
    (env : Nat → List CbCmd) (s : AtomState T) (v v2 : T) (j : Nat)
    (h1 : j ∉ s.listeners) (hn : s.listeners.Nodup)
    (hsub : j ∈ (setAtom env s v).1.listeners)
    (henv : ∀ k, CbCmd.cunsub j ∉ env k) :
    (setAtom env s v).2.count (AtomEv.invoked j) = 0 ∧
    (setAtom env (setAtom env s v).1 v2).2.count (AtomEv.invoked j) = 1 :=
  ⟨setAtom_count_invoked_zero env s v j h1,
   setAtom_count_invoked_one env _ v2 j (setAtom_nodup env s v hn) hsub henv⟩

/-- Witness for C5: listener 0's callback subscribes callback 1 during the
pass; callback 1 is not invoked by that `set` but is invoked by the next. -/
theorem C5_witness :
    (setAtom (fun i => if i = 0 then [CbCmd.csub 1] else [])
      (⟨0, [0]⟩ : AtomState Nat) 1).2.count (AtomEv.invoked 1) = 0 ∧
    (setAtom (fun i => if i = 0 then [CbCmd.csub 1] else [])
      (setAtom (fun i => if i = 0 then [CbCmd.csub 1] else [])
        (⟨0, [0]⟩ : AtomState Nat) 1).1 2).2.count (AtomEv.invoked 1) = 1 :=
  C5_late_subscriber_deferred (fun i => if i = 0 then [CbCmd.csub 1] else [])
    (⟨0, [0]⟩ : AtomState Nat) 1 2 1 (by decide) (by decide) (by decide)
    (by intro k; by_cases hk : k = 0 <;> simp [hk])

/-- C10: registering the same callback twice deduplicates by identity
(`addEventListener` ignores an identical registration), a subsequent `set`
invokes the callback exactly once, and a single unsubscribe removes the
registration entirely so a later `set` does not invoke the callback at all. -/
theorem C10_duplicate_subscribe_dedup {T : Type} [DecidableEq T]
    (env : Nat → List CbCmd) (s : AtomState T) (v v2 : T) (id : Nat)
    (hn : s.listeners.Nodup) (henv : ∀ k, CbCmd.cunsub id ∉ env k) :
    subscribeAtom (subscribeAtom s id) id = subscribeAtom s id ∧
    (setAtom env (subscribeAtom (subscribeAtom s id) id) v).2.count
      (AtomEv.invoked id) = 1 ∧
    (setAtom env
      (unsubscribeAtom (subscribeAtom (subscribeAtom s id) id) id) v2).2.count
        (AtomEv.invoked id) = 0 := by
  have hdup : subscribeAtom (subscribeAtom s id) id = subscribeAtom s id := by
    simp [subscribeAtom, addListener_idem]
  refine ⟨hdup, ?_, ?_⟩
  · rw [hdup]
    exact setAtom_count_invoked_one env _ v id (addListener_nodup id hn)
      (mem_addListener_self _ _) henv
  · rw [hdup]
    exact setAtom_count_invoked_zero env _ v2 id
      (not_mem_removeListener_self id (addListener_nodup id hn))

/-- Witness for C10: subscribing callback 0 twice on a fresh atom, one `set`
invokes it once; after one unsubscribe the next `set` does not invoke it. -/
theorem C10_witness :
    subscribeAtom (subscribeAtom (⟨0, []⟩ : AtomState Nat) 0) 0 =
      subscribeAtom (⟨0, []⟩ : AtomState Nat) 0 ∧
    (setAtom (fun _ => ([] : List CbCmd))
      (subscribeAtom (subscribeAtom (⟨0, []⟩ : AtomState Nat) 0) 0) 1).2.count
        (AtomEv.invoked 0) = 1 ∧
    (setAtom (fun _ => ([] : List CbCmd))
      (unsubscribeAtom
        (subscribeAtom (subscribeAtom (⟨0, []⟩ : AtomState Nat) 0) 0) 0)
          2).2.count (AtomEv.invoked 0) = 0 :=
  C10_duplicate_subscribe_dedup (fun _ => []) (⟨0, []⟩ : AtomState Nat) 1 2 0
    (by decide) (fun k => List.not_mem_nil _)

/-- Settlement event of a promise, at an offset in milliseconds from the
call that created it: a resolution carrying a value, or a rejection. -/
inductive Settle (T : Type) where
  | resolve : Nat → T → Settle T
  | reject : Nat → Settle T
deriving DecidableEq

/-- A pending asynchronous computation, recorded as the list of settlement
events its executor produces, in order. -/
structure PendingValue (T : Type) where
  settlements : List (Settle T)
deriving DecidableEq

/-- The delayed value producer `delayed` (src/index.tsx lines 140-142):
`new Promise(resolve => setTimeout(resolve, 1000, value))`. The executor
schedules a single timer that fires once, 1000 ms after the call, invoking
`resolve` with `value`; nothing ever calls `reject`. -/
def delayed {T : Type} (value : T) : PendingValue T :=
  ⟨[Settle.resolve 1000 value]⟩

/-- Modelled from the spec: `produce(value: T, delayMs: number = 1000)`
(§4.2) returns a pending computation that resolves exactly once to `value`
after `delayMs` elapses measured from call time and never rejects. This
definition follows the spec's words and exists to be compared with the
source's `delayed`, which takes no delay argument. -/
def produceSpec {T : Type} (value : T) (delayMs : Nat) : PendingValue T :=
  ⟨[Settle.resolve delayMs value]⟩

/-- Counterexample to C6 as stated: the claimed interface accepts a delay
argument, so `produceSpec 0 500` resolves 500 ms after the call; the source
producer `delayed` has no delay parameter and no input to it ever yields a
500 ms resolution — every call resolves at exactly 1000 ms. -/
theorem C6_counterexample :
    (produceSpec (0 : Nat) 500).settlements = [Settle.resolve 500 0] ∧
    ¬ ∃ v : Nat, (delayed v).settlements = [Settle.resolve 500 v] := by
  refine ⟨rfl, ?_⟩
  rintro ⟨v, hv⟩
  simp [delayed] at hv

/-- C6 (amended): the producer takes only a value; it returns a pending
computation that settles exactly once, by resolving to that value 1000 ms
after the call (it never rejects), which coincides with the spec's
`produce` at the default delay of 1000 ms. -/
theorem C6_delayed_resolves_once {T : Type} (value : T) :
    (delayed value).settlements = [Settle.resolve 1000 value] ∧
    delayed value = produceSpec value 1000 :=
  ⟨rfl, rfl⟩

/-- Events in the life of the shim component `useSyncExternalStoreShim`
(src/index.tsx lines 131-138) and its atom:

  * `commit` — the host commits the mounted element; the pending `useEffect`
    runs and calls `subscribe(cb)`, storing the returned unsubscribe closure
    as the effect cleanup;
  * `deps` — the `subscribe`/`get` identity changed: the host runs the
    previous cleanup (the stored unsubscribe) and then re-runs the effect,
    registering a new subscription;
  * `unmount` — teardown: the host runs the cleanup;
  * `setv v` — `atom.set(v)`: the atom value is assigned and every
    registered callback runs `setSnapshot(getSnapshot())`, each such call
    re-rendering the consuming element. -/
inductive ShimEv (T : Type) where
  | commit : ShimEv T
  | deps : ShimEv T
  | unmount : ShimEv T
  | setv : T → ShimEv T
deriving DecidableEq

/-- Combined state of the atom and the shim component: the atom value and
listener list, the shim's `useState` snapshot, the registration currently
held by the live effect (if any), a fresh-identity counter for callback
closures (each effect run creates a new `() => setSnapshot(getSnapshot)`
closure), and the number of re-renders `setSnapshot` has caused. -/
structure ShimWorld (T : Type) where
  value : T
  listeners : List Nat
  snapshot : T
  current : Option Nat
  nextId : Nat
  renders : Nat
deriving DecidableEq

/-- Initial world after the first render of the shim component over an atom
holding `v0`: `useState(getSnapshot)` lazily calls `getSnapshot` once, so
the snapshot starts as the atom's value; the effect has not yet run. -/
def initShim {T : Type} (v0 : T) : ShimWorld T :=
  ⟨v0, [], v0, none, 0, 0⟩

/-- The effect cleanup: run the stored unsubscribe closure, if any
(src/index.tsx line 136: the effect returns `subscribe`'s return value). -/
def cleanupShim {T : Type} (w : ShimWorld T) : ShimWorld T :=
  match w.current with
  | some i =>
      { w with listeners := removeListener w.listeners i, current := none }
  | none => w

/-- The effect body: `subscribe(() => setSnapshot(getSnapshot))` with a
fresh callback closure, storing the returned unsubscribe as the cleanup. -/
def subscribeShim {T : Type} (w : ShimWorld T) : ShimWorld T :=
  { w with
    listeners := addListener w.listeners w.nextId
    current := some w.nextId
    nextId := w.nextId + 1 }

/-- One step of the combined atom/shim world.  On `setv v` the atom assigns
the value and notifies: each registered callback calls `setSnapshot(get())`,
which stores the just-committed value and re-renders the element — with no
comparison of the new snapshot against the stored one. -/
def stepShim {T : Type} : ShimWorld T → ShimEv T → ShimWorld T
  | w, ShimEv.commit => subscribeShim w
  | w, ShimEv.deps => subscribeShim (cleanupShim w)
  | w, ShimEv.unmount => cleanupShim w
  | w, ShimEv.setv v =>
      { w with
        value := v
        snapshot := if w.listeners.isEmpty then w.snapshot else v
        renders := w.renders + w.listeners.length }

/-- Execution of a sequence of shim-world events, in order. -/
def runShim {T : Type} : ShimWorld T → List (ShimEv T) → ShimWorld T
  | w, [] => w
  | w, e :: es => runShim (stepShim w e) es

/-- Validity of an event sequence relative to the host lifecycle, starting
mounted-and-committed (`true`) or rendered-but-not-yet-committed (`false`):
the commit happens once, `deps` and `unmount` only after it, and atom `set`
calls may happen at any time. -/
def validFrom {T : Type} : Bool → List (ShimEv T) → Bool
  | _, [] => true
  | false, ShimEv.commit :: es => validFrom true es
  | true, ShimEv.deps :: es => validFrom true es
  | true, ShimEv.unmount :: es => validFrom false es
  | b, ShimEv.setv _ :: es => validFrom b es
  | _, _ => false

/-- Mounted-state flag after processing an event sequence. -/
def endMode {T : Type} : Bool → List (ShimEv T) → Bool
  | b, [] => b
  | _, ShimEv.commit :: es => endMode true es
  | _, ShimEv.deps :: es => endMode true es
  | _, ShimEv.unmount :: es => endMode false es
  | b, ShimEv.setv _ :: es => endMode b es

/-- Modelled from the spec: the observable snapshot behavior of the native
adapter (§4.3) that the shim must reproduce (§4.4): the snapshot starts as
`get()` at first evaluation, and while a subscription is active each change
notification refreshes it to `get()` at notification time. -/
structure SpecShim (T : Type) where
  subscribed : Bool
  snap : T
deriving DecidableEq

/-- One step of the spec-side snapshot model. -/
def specStep {T : Type} : SpecShim T → ShimEv T → SpecShim T
  | m, ShimEv.commit => { m with subscribed := true }
  | m, ShimEv.deps => { m with subscribed := true }
  | m, ShimEv.unmount => { m with subscribed := false }
  | m, ShimEv.setv v => if m.subscribed then { m with snap := v } else m

/-- Execution of the spec-side snapshot model over an event sequence. -/
def runSpec {T : Type} : SpecShim T → List (ShimEv T) → SpecShim T
  | m, [] => m
  | m, e :: es => runSpec (specStep m e) es

/-- Structural invariant of the shim world: the mounted flag matches whether
an effect registration is live, and the atom's listener list consists of
exactly the registration held by the live effect, if any. -/
def ShimInv {T : Type} (b : Bool) (w : ShimWorld T) : Prop :=
  w.current.isSome = b ∧ w.listeners = w.current.toList

theorem cleanupShim_snapshot {T : Type} (w : ShimWorld T) :
    (cleanupShim w).snapshot = w.snapshot := by
  cases h : w.current <;> simp [cleanupShim, h]

theorem cleanupShim_nextId {T : Type} (w : ShimWorld T) :
    (cleanupShim w).nextId = w.nextId := by
  cases h : w.current <;> simp [cleanupShim, h]

theorem shimInv_commit {T : Type} (w : ShimWorld T) (h : ShimInv false w) :
    ShimInv true (stepShim w ShimEv.commit) := by
  obtain ⟨h1, h2⟩ := h
  have hc : w.current = none := by
    cases hcur : w.current with
    | none => rfl
    | some i => rw [hcur] at h1; simp at h1
  rw [hc] at h2
  exact ⟨by simp [stepShim, subscribeShim],
    by simp [stepShim, subscribeShim, addListener, h2]⟩

theorem shimInv_deps {T : Type} (w : ShimWorld T) (h : ShimInv true w) :
    ShimInv true (stepShim w ShimEv.deps) := by
  obtain ⟨h1, h2⟩ := h
  obtain ⟨i, hi⟩ := Option.isSome_iff_exists.mp h1
  rw [hi] at h2
  refine ⟨by simp [stepShim, subscribeShim], ?_⟩
  simp [stepShim, subscribeShim, cleanupShim, hi, h2, removeListener,
    addListener]

theorem shimInv_unmount {T : Type} (w : ShimWorld T) (h : ShimInv true w) :
    ShimInv false (stepShim w ShimEv.unmount) := by
  obtain ⟨h1, h2⟩ := h
  obtain ⟨i, hi⟩ := Option.isSome_iff_exists.mp h1
  rw [hi] at h2
  refine ⟨?_, ?_⟩ <;>
    simp [stepShim, cleanupShim, hi, h2, removeListener]

theorem shimInv_setv {T : Type} (b : Bool) (w : ShimWorld T) (v : T)
    (h : ShimInv b w) : ShimInv b (stepShim w (ShimEv.setv v)) := by
  exact ⟨h.1, h.2⟩

theorem runShim_inv {T : Type} (es : List (ShimEv T)) (b : Bool)
    (w : ShimWorld T) (hv : validFrom b es = true) (hw : ShimInv b w) :
    ShimInv (endMode b es) (runShim w es) := by
  induction es generalizing b w with
  | nil => exact hw
  | cons e es ih =>
    cases e with
    | commit =>
      cases b with
      | true => simp [validFrom] at hv
      | false =>
        exact ih true _ (by simpa [validFrom] using hv) (shimInv_commit w hw)
    | deps =>
      cases b with
      | false => simp [validFrom] at hv
      | true =>
        exact ih true _ (by simpa [validFrom] using hv) (shimInv_deps w hw)
    | unmount =>
      cases b with
      | false => simp [validFrom] at hv
      | true =>
        exact ih false _ (by simpa [validFrom] using hv)
          (shimInv_unmount w hw)
    | setv v =>
      cases b with
      | false =>
        exact ih false _ (by simpa [validFrom] using hv)
          (shimInv_setv false w v hw)
      | true =>
        exact ih true _ (by simpa [validFrom] using hv)
          (shimInv_setv true w v hw)

theorem shimInv_single {T : Type} (b : Bool) (w : ShimWorld T)
    (h : ShimInv b w) :
    w.listeners.length ≤ 1 ∧
    (stepShim w ShimEv.unmount).listeners = [] ∧
    (stepShim w ShimEv.deps).listeners = [w.nextId] ∧
    (∀ i, w.current = some i → i ∉ (cleanupShim w).listeners) := by
  obtain ⟨h1, h2⟩ := h
  cases hcur : w.current with
  | none =>
    rw [hcur] at h2
    refine ⟨by simp [h2], ?_, ?_, ?_⟩
    · simp [stepShim, cleanupShim, hcur, h2]
    · simp [stepShim, cleanupShim, subscribeShim, hcur, h2, addListener]
    · intro i hi
      exact Option.noConfusion hi
  | some i =>
    rw [hcur] at h2
    refine ⟨by simp [h2], ?_, ?_, ?_⟩
    · simp [stepShim, cleanupShim, hcur, h2, removeListener]
    · simp [stepShim, cleanupShim, subscribeShim, hcur, h2, removeListener,
        addListener]
    · intro j hj
      cases hj
      simp [cleanupShim, hcur, h2, removeListener]

/-- C9: for every valid lifecycle, the shim holds at most one active
subscription at any reachable state; running the effect cleanup on teardown
empties the atom's listener list; a dependency change leaves exactly the
fresh registration active; and the cleanup — which on a dependency change
runs before the new registration — removes the previous registration. -/
theorem C9_single_subscription {T : Type} (v0 : T) (es : List (ShimEv T))
    (hv : validFrom false es = true) :
    (runShim (initShim v0) es).listeners.length ≤ 1 ∧
    (stepShim (runShim (initShim v0) es) ShimEv.unmount).listeners = [] ∧
    (stepShim (runShim (initShim v0) es) ShimEv.deps).listeners =
      [(runShim (initShim v0) es).nextId] ∧
    (∀ i, (runShim (initShim v0) es).current = some i →
      i ∉ (cleanupShim (runShim (initShim v0) es)).listeners) :=
  shimInv_single (endMode false es) (runShim (initShim v0) es)
    (runShim_inv es false (initShim v0) hv ⟨rfl, rfl⟩)

/-- Witness for C9: a commit, an atom set and a dependency change keep the
listener list at length at most one, with release on every exit path. -/
theorem C9_witness :
    (runShim (initShim (0 : Nat))
      [ShimEv.commit, ShimEv.setv 5, ShimEv.deps]).listeners.length ≤ 1 ∧
    (stepShim (runShim (initShim (0 : Nat))
      [ShimEv.commit, ShimEv.setv 5, ShimEv.deps])
        ShimEv.unmount).listeners = [] ∧
    (stepShim (runShim (initShim (0 : Nat))
      [ShimEv.commit, ShimEv.setv 5, ShimEv.deps]) ShimEv.deps).listeners =
      [(runShim (initShim (0 : Nat))
        [ShimEv.commit, ShimEv.setv 5, ShimEv.deps]).nextId] ∧
    (∀ i, (runShim (initShim (0 : Nat))
      [ShimEv.commit, ShimEv.setv 5, ShimEv.deps]).current = some i →
        i ∉ (cleanupShim (runShim (initShim (0 : Nat))
          [ShimEv.commit, ShimEv.setv 5, ShimEv.deps])).listeners) :=
  C9_single_subscription 0 [ShimEv.commit, ShimEv.setv 5, ShimEv.deps]
    (by decide)

theorem runShim_snap {T : Type} (es : List (ShimEv T)) (b : Bool)
    (w : ShimWorld T) (m : SpecShim T) (hv : validFrom b es = true)
    (hw : ShimInv b w) (hm : m.subscribed = b) (hs : w.snapshot = m.snap) :
    (runShim w es).snapshot = (runSpec m es).snap := by
  induction es generalizing b w m with
  | nil => exact hs
  | cons e es ih =>
    cases e with
    | commit =>
      cases b with
      | true => simp [validFrom] at hv
      | false =>
        simp only [runShim, runSpec, stepShim, specStep]
        exact ih true _ _ (by simpa [validFrom] using hv)
          (shimInv_commit w hw) rfl hs
    | deps =>
      cases b with
      | false => simp [validFrom] at hv
      | true =>
        simp only [runShim, runSpec, stepShim, specStep]
        refine ih true _ _ (by simpa [validFrom] using hv)
          (shimInv_deps w hw) rfl ?_
        rw [show (subscribeShim (cleanupShim w)).snapshot = w.snapshot from
          cleanupShim_snapshot w]
        exact hs
    | unmount =>
      cases b with
      | false => simp [validFrom] at hv
      | true =>
        simp only [runShim, runSpec, stepShim, specStep]
        refine ih false _ _ (by simpa [validFrom] using hv)
          (shimInv_unmount w hw) rfl ?_
        rw [cleanupShim_snapshot w]
        exact hs
    | setv v =>
      cases b with
      | false =>
        have hc : w.current = none := by
          cases hcur : w.current with
          | none => rfl
          | some i =>
            have h1 := hw.1
            rw [hcur] at h1
            simp at h1
        have hl : w.listeners = [] := by
          rw [hw.2, hc]
          rfl
        simp only [runShim, runSpec, stepShim, specStep, hm]
        refine ih false _ _ (by simpa [validFrom] using hv)
          (shimInv_setv false w v hw) hm ?_
        simpa [hl] using hs
      | true =>
        obtain ⟨i, hi⟩ := Option.isSome_iff_exists.mp hw.1
        have hl : w.listeners = [i] := by
          rw [hw.2, hi]
          rfl
        simp only [runShim, runSpec, stepShim, specStep, hm]
        refine ih true _ _ (by simpa [validFrom] using hv)
          (shimInv_setv true w v hw) ?_ ?_
        · simp [hm]
        · simp [hl, hm]

/-- C7: the shim's first-evaluation snapshot equals the atom's `get()` at
that time, and over every valid lifecycle the shim's snapshot equals the
snapshot of the spec-side native-adapter model: the atom's value as of the
most recently processed change notification (or the initial `get()` when
none has been processed). -/
theorem C7_shim_matches_native {T : Type} (v0 : T) (es : List (ShimEv T))
    (hv : validFrom false es = true) :
    (initShim v0).snapshot = getAtom (initAtom v0) ∧
    (runShim (initShim v0) es).snapshot =
      (runSpec ⟨false, v0⟩ es).snap :=
  ⟨rfl, runShim_snap es false (initShim v0) ⟨false, v0⟩ hv ⟨rfl, rfl⟩ rfl rfl⟩

/-- Witness for C7: after commit, two sets, an unmount and a further set,
the shim snapshot agrees with the spec-side model (which holds 4: the last
notification processed while subscribed). -/
theorem C7_witness :
    (initShim (0 : Nat)).snapshot = getAtom (initAtom (0 : Nat)) ∧
    (runShim (initShim (0 : Nat))
      [ShimEv.commit, ShimEv.setv 3, ShimEv.setv 4, ShimEv.unmount,
        ShimEv.setv 9]).snapshot =
      (runSpec ⟨false, (0 : Nat)⟩
        [ShimEv.commit, ShimEv.setv 3, ShimEv.setv 4, ShimEv.unmount,
          ShimEv.setv 9]).snap :=
  C7_shim_matches_native 0
    [ShimEv.commit, ShimEv.setv 3, ShimEv.setv 4, ShimEv.unmount,
      ShimEv.setv 9] (by decide)

/-- C8: with the subscription active, a notification whose freshly fetched
snapshot equals the stored one still re-renders the consuming element: the
shim calls `setSnapshot` unconditionally, performing no memoized bail-out on
equal snapshots. -/
theorem C8_rerender_without_bailout {T : Type} (w : ShimWorld T) (i : Nat)
    (h : w.listeners = [i]) :
    (stepShim w (ShimEv.setv w.snapshot)).renders = w.renders + 1 ∧
    (stepShim w (ShimEv.setv w.snapshot)).snapshot = w.snapshot := by
  constructor <;> simp [stepShim, h]

/-- Witness for C8: a subscribed world whose atom value and snapshot are
both 5 still gains one re-render when 5 is set again. -/
theorem C8_witness :
    (stepShim (⟨5, [0], 5, some 0, 1, 0⟩ : ShimWorld Nat)
      (ShimEv.setv (⟨5, [0], 5, some 0, 1, 0⟩ : ShimWorld Nat).snapshot)).renders =
      (⟨5, [0], 5, some 0, 1, 0⟩ : ShimWorld Nat).renders + 1 ∧
    (stepShim (⟨5, [0], 5, some 0, 1, 0⟩ : ShimWorld Nat)
      (ShimEv.setv (⟨5, [0], 5, some 0, 1, 0⟩ : ShimWorld Nat).snapshot)).snapshot =
      (⟨5, [0], 5, some 0, 1, 0⟩ : ShimWorld Nat).snapshot :=
  C8_rerender_without_bailout (⟨5, [0], 5, some 0, 1, 0⟩ : ShimWorld Nat) 0 rfl
